import Mathlib

/-!
Shallow embedding of `src/slideshow.py` (photo slideshow construction and
sequencing model) together with proofs about its specification.

Conventions of the embedding:
* a photo record `(i, orientation, tags)` becomes the structure `Photo`;
* an input file is modelled as its already-split lines: the photo count `n`
  plus a list of token lists (Python `f.readline().strip().split()`);
* Python `int(...)` on a token is modelled by `litEntier`, covering the
  digit-string case (a non-digit token fails, as `int` raises);
* Python exceptions surfacing to the caller are modelled by `Option`:
  `none` means the call raises and no partial result is produced;
* Gurobi binary decision variables are modelled as a total assignment
  `x : Nat -> Nat -> Nat`; only the values at indices below the slide count
  are meaningful, and the model constrains them to 0 or 1.  The float test
  `var.X > 0.5` of the extraction loop becomes `1 <= x i pos`, which agrees
  with it on 0/1 values;
* the fixed solver configuration performed by `main` is recorded as the
  association list `parametres_solveur`.
-/

/-- Photo record produced by `lire_input` (line 16 of the source):
0-based id, orientation token, deduplicated tag set. -/
structure Photo where
  id : Nat
  orientation : String
  tags : Finset String
deriving DecidableEq

/-- Default photo used with `List.getD`. -/
def photo_defaut : Photo := ⟨0, "", ∅⟩

/-- Numeric value of a decimal digit character, `none` otherwise. -/
def valChiffre (c : Char) : Option Nat :=
  if c.isDigit then some (c.toNat - 48) else none

/-- Model of Python `int(token)` for the digit-string case: the whole token
must consist of decimal digits, otherwise the parse fails. -/
def litEntier (s : String) : Option Nat :=
  match s.data with
  | [] => none
  | l => l.foldl (fun acc c => acc.bind fun n => (valChiffre c).map fun d => n * 10 + d)
      (some 0)

/-- Embedding of one iteration of the reading loop (source lines 12-15):
`orientation = line[0]`, `num_tags = int(line[1])`,
`tags = set(line[2:2+num_tags])`.  A line with fewer than two tokens or a
non-numeric count raises, hence `none`; the orientation token is NOT
validated, and the tag slice silently truncates. -/
def parse_ligne (tokens : List String) : Option (String × Nat × Finset String) :=
  match tokens with
  | orientation :: compte :: reste =>
    match litEntier compte with
    | some num_tags => some (orientation, num_tags, (reste.take num_tags).toFinset)
    | none => none
  | _ => none

/-- Reading loop of `lire_input` (source lines 11-16), reading `k` lines
starting at line index `i`; a missing line is the empty token list
(Python `readline` on an exhausted file yields the empty string). -/
def lire_lignes (lines : List (List String)) : Nat → Nat → Option (List Photo)
  | _, 0 => some []
  | i, k + 1 =>
    match parse_ligne (lines.getD i []) with
    | some (orientation, _, tags) =>
      match lire_lignes lines (i + 1) k with
      | some reste => some (⟨i, orientation, tags⟩ :: reste)
      | none => none
    | none => none

/-- Embedding of `lire_input` (source lines 6-17): the first line carries the
count `n`; the next `n` lines are parsed into photos with 0-based ids. -/
def lire_input (n : Nat) (lines : List (List String)) : Option (List Photo) :=
  lire_lignes lines 0 n

/-- Embedding of the nested pair loop of `creer_slides` (source lines 28-34):
for each vertical photo, pair it with every later vertical photo, id pair in
loop order and tags the set union. -/
def pairesVerticales : List (Nat × Finset String) → List (List Nat × Finset String)
  | [] => []
  | v :: reste => (reste.map fun w => ([v.1, w.1], v.2 ∪ w.2)) ++ pairesVerticales reste

/-- Embedding of the vertical-photo selection (source line 27). -/
def verticales (photos : List Photo) : List (Nat × Finset String) :=
  photos.filterMap fun p => if p.orientation = "V" then some (p.id, p.tags) else none

/-- Embedding of `creer_slides` (source lines 19-36): one singleton slide per
horizontal photo, in order, followed by all vertical pairs. -/
def creer_slides (photos : List Photo) : List (List Nat × Finset String) :=
  (photos.filterMap fun p => if p.orientation = "H" then some ([p.id], p.tags) else none)
    ++ pairesVerticales (verticales photos)

/-- Horizontal photos of the catalog, in input order. -/
def horizontales (photos : List Photo) : List Photo :=
  photos.filter fun p => decide (p.orientation = "H")

/-- Singleton slide built from one horizontal photo (source line 24). -/
def slide_horizontale (p : Photo) : List Nat × Finset String :=
  ([p.id], p.tags)

/-- Embedding of `calculer_score` (source lines 38-43). -/
def calculer_score (tags1 tags2 : Finset String) : Nat :=
  let tags_communs := (tags1 ∩ tags2).card
  let tags_uniquement_1 := (tags1 \ tags2).card
  let tags_uniquement_2 := (tags2 \ tags1).card
  min tags_communs (min tags_uniquement_1 tags_uniquement_2)

/-- Default slide used with `List.getD`. -/
def slide_defaut : List Nat × Finset String := ([], ∅)

/-- Default vertical entry used with `List.getD`. -/
def paire_defaut : Nat × Finset String := (0, ∅)

/-- Variables are binary (source line 53): each of the `S * S` position
variables takes value 0 or 1. -/
def variables_binaires (slides : List (List Nat × Finset String))
    (x : Nat → Nat → Nat) : Prop :=
  ∀ i < slides.length, ∀ pos < slides.length, x i pos ≤ 1

/-- Constraint family of source lines 56-57: each position holds at most one
slide. -/
def contrainte_position (slides : List (List Nat × Finset String))
    (x : Nat → Nat → Nat) : Prop :=
  ∀ pos < slides.length, (Finset.range slides.length).sum (fun i => x i pos) ≤ 1

/-- Constraint family of source lines 60-61: each slide is used at at most one
position. -/
def contrainte_slide (slides : List (List Nat × Finset String))
    (x : Nat → Nat → Nat) : Prop :=
  ∀ i < slides.length, (Finset.range slides.length).sum (fun pos => x i pos) ≤ 1

/-- Photo ids occurring in some candidate slide: exactly the keys of the
`utilisations_photo` dictionary of source lines 64-69. -/
def photos_presentes (slides : List (List Nat × Finset String)) : Finset Nat :=
  slides.foldr (fun s acc => s.1.toFinset ∪ acc) ∅

/-- Total usage of photo `p` (source lines 64-69): for each slide, one term
per occurrence of `p` in its id list, summed over every position variable of
that slide. -/
def utilisation_photo (slides : List (List Nat × Finset String))
    (x : Nat → Nat → Nat) (p : Nat) : Nat :=
  (Finset.range slides.length).sum fun i =>
    (slides.getD i slide_defaut).1.count p *
      (Finset.range slides.length).sum fun pos => x i pos

/-- Constraint family of source lines 71-72: each photo id occurring in the
candidate universe is used at most once. -/
def contrainte_photo (slides : List (List Nat × Finset String))
    (x : Nat → Nat → Nat) : Prop :=
  ∀ p ∈ photos_presentes slides, utilisation_photo slides x p ≤ 1

/-- Constraint of source line 86: at least one slide sits at position 0. -/
def contrainte_premiere (slides : List (List Nat × Finset String))
    (x : Nat → Nat → Nat) : Prop :=
  1 ≤ (Finset.range slides.length).sum fun i => x i 0

/-- Conjunction of every constraint built by `construire_modele`
(source lines 45-88), together with the binary variable bounds. -/
def modele_satisfait (slides : List (List Nat × Finset String))
    (x : Nat → Nat → Nat) : Prop :=
  variables_binaires slides x ∧ contrainte_position slides x ∧
    contrainte_slide slides x ∧ contrainte_photo slides x ∧
    contrainte_premiere slides x

/-- Objective of source lines 75-83: summed score between consecutive
positions, weighted by the product of the two selection variables. -/
def objectif (slides : List (List Nat × Finset String))
    (x : Nat → Nat → Nat) : Nat :=
  (Finset.range (slides.length - 1)).sum fun pos =>
    (Finset.range slides.length).sum fun i =>
      (Finset.range slides.length).sum fun j =>
        calculer_score (slides.getD i slide_defaut).2 (slides.getD j slide_defaut).2 *
          x i pos * x j (pos + 1)

/-- Inner search of `get_solution` (source lines 98-101): first slide index
below `n` whose variable at `pos` exceeds 0.5. -/
def cherche_slide (x : Nat → Nat → Nat) (n pos : Nat) : Option Nat :=
  (List.range n).find? fun i => decide (1 ≤ x i pos)

/-- Position loop of `get_solution` (source lines 96-104): scan positions in
order, append the found slide, stop at the first position with no slide. -/
def boucle_solution (x : Nat → Nat → Nat) (n : Nat) : Nat → Nat → List Nat
  | 0, _ => []
  | carburant + 1, pos =>
    match cherche_slide x n pos with
    | some i => i :: boucle_solution x n carburant (pos + 1)
    | none => []

/-- Embedding of `get_solution` (source lines 90-106) over the `n * n`
variable grid of an `n`-slide universe. -/
def get_solution (x : Nat → Nat → Nat) (n : Nat) : List Nat :=
  boucle_solution x n n 0

/-- Solver parameters assigned by `main` (source line 137):
`model.Params.TimeLimit = 90`. -/
def parametres_solveur : List (String × Nat) := [("TimeLimit", 90)]

/-- Fixed output filename of `main` (source line 125). -/
def fichier_sortie : String := "slideshow.sol"

/-- Usage message printed by `main` (source line 121). -/
def message_usage : String := "Usage: python slideshow.py <fichier entree>"

/-- Command-line surface of `main` (source lines 119-125): with an argument
vector of any length other than 2, print the usage message and exit with
code 1; otherwise run on the given path, writing to the fixed filename. -/
def main_cli (argv : List String) : Except (Nat × String) (String × String) :=
  if argv.length = 2 then Except.ok (argv.getD 1 "", fichier_sortie)
  else Except.error (1, message_usage)

/-- Modelled from the spec wording of the slide-generation algorithm: all
index pairs `(i, j)` with `i < j < n`, in lexicographic order (for each `i`
in increasing order, `j` runs over `i+1, ..., n-1` in increasing order,
since `(List.range n).drop (i+1)` lists exactly those values). -/
def lexPairs (n : Nat) : List (Nat × Nat) :=
  (List.range n).flatMap fun i => ((List.range n).drop (i + 1)).map fun j => (i, j)

/-- Paired slide described by an index pair into the vertical photo list:
the two ids and the union of the two tag sets. -/
def slide_paire (l : List (Nat × Finset String)) (ij : Nat × Nat) :
    List Nat × Finset String :=
  ([(l.getD ij.1 paire_defaut).1, (l.getD ij.2 paire_defaut).1],
    (l.getD ij.1 paire_defaut).2 ∪ (l.getD ij.2 paire_defaut).2)

/-- Statement that the generated candidate universe is the horizontal
singleton slides in input order followed by one paired slide per
lexicographically ordered index pair of vertical photos, with the expected
count and distinct ids inside every pair. -/
def generation_conforme (photos : List Photo) : Prop :=
  creer_slides photos
      = (horizontales photos).map slide_horizontale
        ++ (lexPairs (verticales photos).length).map (slide_paire (verticales photos)) ∧
  (creer_slides photos).length
      = (horizontales photos).length + Nat.choose (verticales photos).length 2 ∧
  (∀ ij : Nat × Nat,
      ij ∈ lexPairs (verticales photos).length ↔
        ij.1 < ij.2 ∧ ij.2 < (verticales photos).length) ∧
  (lexPairs (verticales photos).length).Nodup ∧
  ∀ ij ∈ lexPairs (verticales photos).length,
      ((verticales photos).getD ij.1 paire_defaut).1
        ≠ ((verticales photos).getD ij.2 paire_defaut).1

/-- Uniqueness properties of a satisfying assignment: a slide at one position
only, one slide per position, and each photo id inside at most one selected
slide. -/
def selection_unique (slides : List (List Nat × Finset String))
    (x : Nat → Nat → Nat) : Prop :=
  (∀ i pos1 pos2, i < slides.length → pos1 < slides.length → pos2 < slides.length →
      1 ≤ x i pos1 → 1 ≤ x i pos2 → pos1 = pos2) ∧
  (∀ i j pos, i < slides.length → j < slides.length → pos < slides.length →
      1 ≤ x i pos → 1 ≤ x j pos → i = j) ∧
  ∀ p i j pos1 pos2, i < slides.length → j < slides.length →
      pos1 < slides.length → pos2 < slides.length →
      1 ≤ x i pos1 → 1 ≤ x j pos2 →
      p ∈ (slides.getD i slide_defaut).1 → p ∈ (slides.getD j slide_defaut).1 → i = j

/-- Validity of the extracted solution: no repeated slide index, and no photo
id occurring in the slides of two distinct retained positions. -/
def solution_valide (slides : List (List Nat × Finset String))
    (x : Nat → Nat → Nat) : Prop :=
  (get_solution x slides.length).Nodup ∧
  ∀ p t1 t2, t1 < (get_solution x slides.length).length →
      t2 < (get_solution x slides.length).length →
      p ∈ (slides.getD ((get_solution x slides.length).getD t1 0) slide_defaut).1 →
      p ∈ (slides.getD ((get_solution x slides.length).getD t2 0) slide_defaut).1 →
      t1 = t2

/-- Concrete photo catalog used by witnesses. -/
def photos_test : List Photo :=
  [⟨0, "H", {"cat", "dog"}⟩, ⟨1, "H", {"dog", "bird"}⟩, ⟨2, "V", {"cat"}⟩,
    ⟨3, "V", {"bird"}⟩, ⟨4, "V", {"fish"}⟩]

/-- Concrete candidate universe used by witnesses. -/
def slides_test : List (List Nat × Finset String) :=
  [([0], {"cat", "dog"}), ([1, 2], {"bird", "cat"})]

/-- Concrete satisfying assignment used by witnesses: slide 0 at position 0,
nothing else selected. -/
def x_test : Nat → Nat → Nat :=
  fun i pos => if i = 0 ∧ pos = 0 then 1 else 0

/-- Concrete tokenized input lines used by witnesses: one record with an
unrecognized orientation token. -/
def lines_test : List (List String) := [["X", "1", "arbre"]]

/-- Helper: a sum over a range is at least 2 when two distinct indices each
contribute at least 1. -/
theorem somme_deux_le {f : Nat → Nat} {n i j : Nat} (hi : i < n) (hj : j < n)
    (hij : i ≠ j) (h1 : 1 ≤ f i) (h2 : 1 ≤ f j) :
    2 ≤ (Finset.range n).sum f := by
  have hsub : ({i, j} : Finset Nat) ⊆ Finset.range n := by
    intro a ha
    rcases Finset.mem_insert.mp ha with rfl | ha
    · exact Finset.mem_range.mpr hi
    · rcases Finset.mem_singleton.mp ha with rfl
      exact Finset.mem_range.mpr hj
  calc 2 ≤ f i + f j := by omega
    _ = ({i, j} : Finset Nat).sum f := (Finset.sum_pair hij).symm
    _ ≤ (Finset.range n).sum f := Finset.sum_le_sum_of_subset hsub

/-- Helper: one term of a range sum of naturals bounds the sum from below. -/
theorem terme_le_somme {f : Nat → Nat} {n i : Nat} (hi : i < n) :
    f i ≤ (Finset.range n).sum f :=
  Finset.single_le_sum (fun _ _ => Nat.zero_le _) (Finset.mem_range.mpr hi)

/-- C1: for all finite tag sets A and B, `calculer_score` returns
min(card of the intersection, card of A minus B, card of B minus A); it is
symmetric, and it is 0 whenever any of the three quantities vanishes. -/
theorem C1_calculer_score_spec (A B : Finset String) :
    calculer_score A B = min ((A ∩ B).card) (min ((A \ B).card) ((B \ A).card)) ∧
    calculer_score A B = calculer_score B A ∧
    (((A ∩ B).card = 0 ∨ (A \ B).card = 0 ∨ (B \ A).card = 0) →
      calculer_score A B = 0) := by
  refine ⟨rfl, ?_, ?_⟩
  · simp only [calculer_score]
    rw [Finset.inter_comm]
    omega
  · intro h
    simp only [calculer_score]
    omega

/-- C4, counterexample: on a concrete two-slide universe, the all-zero
assignment violates the constraints built by the model constructor (it
breaks the at-least-one-slide-at-position-0 constraint of source line 86). -/
theorem C4_contre_exemple : ¬ modele_satisfait slides_test (fun _ _ => 0) := by
  intro h
  have hp := h.2.2.2.2
  simp [contrainte_premiere, slides_test] at hp

/-- C4, amended: the all-zero assignment satisfies the binary bounds and the
per-position, per-slide and per-photo constraints, but violates the
at-least-one-slide-at-position-0 constraint on every candidate universe, the
empty one included; the extraction loop on an empty universe returns the
empty sequence. -/
theorem C4_solution_vide :
    (∀ slides : List (List Nat × Finset String),
        variables_binaires slides (fun _ _ => 0) ∧
        contrainte_position slides (fun _ _ => 0) ∧
        contrainte_slide slides (fun _ _ => 0) ∧
        contrainte_photo slides (fun _ _ => 0) ∧
        ¬ contrainte_premiere slides (fun _ _ => 0)) ∧
    ∀ x : Nat → Nat → Nat, get_solution x 0 = [] := by
  constructor
  · intro slides
    refine ⟨?_, ?_, ?_, ?_, ?_⟩ <;>
      simp [variables_binaires, contrainte_position, contrainte_slide,
        contrainte_photo, utilisation_photo, contrainte_premiere]
  · intro x
    rfl

/-- C7, counterexample: the solver configuration written by `main` recognizes
no option named time_limit_seconds. -/
theorem C7_contre_exemple :
    parametres_solveur.lookup "time_limit_seconds" = none := by decide

/-- C7, amended: the optimizer time budget is hard-coded: the only solver
parameter `main` sets is TimeLimit, with value 90 seconds; no option named
time_limit_seconds exists. -/
theorem C7_limite_temps :
    parametres_solveur.lookup "TimeLimit" = some 90 ∧
    parametres_solveur.lookup "time_limit_seconds" = none ∧
    parametres_solveur.map Prod.fst = ["TimeLimit"] := by decide

/-- C8: with any argument count other than one input path, the program exits
with code 1 and the usage message; on success the output filename is the
fixed slideshow.sol; the argument-count test is the only error source at the
command-line layer. -/
theorem C8_cli (argv : List String) :
    (argv.length ≠ 2 → main_cli argv = Except.error (1, message_usage)) ∧
    (argv.length = 2 → main_cli argv = Except.ok (argv.getD 1 "", "slideshow.sol")) ∧
    ((∃ e, main_cli argv = Except.error e) ↔ argv.length ≠ 2) := by
  by_cases h : argv.length = 2 <;>
    simp [main_cli, h, fichier_sortie]

/-- C5, counterexample: a record whose orientation token is neither H nor V
and whose declared tag count exceeds the tokens present loads without any
error, producing a complete parse, where the claim requires a failure. -/
theorem C5_contre_exemple :
    lire_input 1 [["X", "3", "chat"]] = some [⟨0, "X", {"chat"}⟩] := by decide

/-- C10: the tag set of a parsed record is exactly the first declared-count
tokens after the count, deduplicated into a set; extra tokens are silently
ignored, and when fewer tokens are present the whole remainder is taken,
without any error. -/
theorem C10_tags_declares (o c : String) (reste : List String) (k : Nat)
    (hc : litEntier c = some k) :
    parse_ligne (o :: c :: reste) = some (o, k, (reste.take k).toFinset) ∧
    (reste.length ≤ k → parse_ligne (o :: c :: reste) = some (o, k, reste.toFinset)) := by
  constructor
  · simp [parse_ligne, hc]
  · intro hlen
    simp [parse_ligne, hc, List.take_of_length_le hlen]

/-- C10, witness: concrete record with three tokens and declared count 2. -/
theorem C10_tags_declares_temoin :
    litEntier "2" = some 2 ∧
    (parse_ligne ["H", "2", "chat", "chien", "riz"]
        = some ("H", 2, (["chat", "chien", "riz"].take 2).toFinset) ∧
      (["chat", "chien", "riz"].length ≤ 2 →
        parse_ligne ["H", "2", "chat", "chien", "riz"]
          = some ("H", 2, ["chat", "chien", "riz"].toFinset))) :=
  ⟨by decide, C10_tags_declares "H" "2" ["chat", "chien", "riz"] 2 (by decide)⟩

/-- Helper: full behavior of the extraction loop: it returns at most `fuel`
indices, the entry at offset `t` is the first selected slide at position
`pos + t`, and when it stops early the next position has no selected slide. -/
theorem boucle_solution_spec (x : Nat → Nat → Nat) (n : Nat) :
    ∀ fuel pos,
      (boucle_solution x n fuel pos).length ≤ fuel ∧
      (∀ t, t < (boucle_solution x n fuel pos).length →
          cherche_slide x n (pos + t) = some ((boucle_solution x n fuel pos).getD t 0)) ∧
      ((boucle_solution x n fuel pos).length < fuel →
          cherche_slide x n (pos + (boucle_solution x n fuel pos).length) = none) := by
  intro fuel
  induction fuel with
  | zero =>
    intro pos
    refine ⟨Nat.le_refl 0, ?_, ?_⟩ <;> simp [boucle_solution]
  | succ fuel ih =>
    intro pos
    cases h : cherche_slide x n pos with
    | none =>
      refine ⟨?_, ?_, ?_⟩ <;> simp [boucle_solution, h]
    | some i =>
      have hb : boucle_solution x n (fuel + 1) pos
          = i :: boucle_solution x n fuel (pos + 1) := by
        simp [boucle_solution, h]
      refine ⟨?_, ?_, ?_⟩
      · rw [hb]
        simpa using (ih (pos + 1)).1
      · intro t ht
        rw [hb]
        cases t with
        | zero => simpa using h
        | succ t =>
          rw [hb] at ht
          have ht' : t < (boucle_solution x n fuel (pos + 1)).length := by
            simpa using ht
          have := (ih (pos + 1)).2.1 t ht'
          rw [show pos + (t + 1) = pos + 1 + t by omega]
          simpa using this
      · rw [hb]
        intro hlt
        have hlt' : (boucle_solution x n fuel (pos + 1)).length < fuel := by
          simpa using hlt
        have := (ih (pos + 1)).2.2 hlt'
        rw [show pos + (i :: boucle_solution x n fuel (pos + 1)).length
            = pos + 1 + (boucle_solution x n fuel (pos + 1)).length by simp; omega]
        exact this

/-- Helper: a successful inner search returns an index below `n` whose
variable at that position exceeds 0.5. -/
theorem cherche_slide_some {x : Nat → Nat → Nat} {n pos i : Nat}
    (h : cherche_slide x n pos = some i) : i < n ∧ 1 ≤ x i pos := by
  constructor
  · have := List.mem_of_find?_eq_some h
    simpa using this
  · have := List.find?_some h
    simpa using this

/-- C6: for every assignment, the extraction returns a contiguous prefix of
positions with no gap: at most `n` indices, whose entry at each retained
position is the first slide index whose variable there exceeds 0.5, stopping
exactly at the first position with no selected slide (a position where every
variable is 0 on the binary reading), and never erroring. -/
theorem C6_extraction_prefixe (x : Nat → Nat → Nat) (n : Nat) :
    (get_solution x n).length ≤ n ∧
    (∀ t, t < (get_solution x n).length →
        cherche_slide x n t = some ((get_solution x n).getD t 0)) ∧
    ((get_solution x n).length < n →
        cherche_slide x n (get_solution x n).length = none) ∧
    ∀ pos, cherche_slide x n pos = none ↔ ∀ i, i < n → x i pos = 0 := by
  have h := boucle_solution_spec x n n 0
  refine ⟨h.1, ?_, ?_, ?_⟩
  · intro t ht
    have := h.2.1 t ht
    simpa using this
  · intro hlt
    have := h.2.2 hlt
    simpa using this
  · intro pos
    constructor
    · intro hnone i hi
      have := List.find?_eq_none.mp hnone i (by simpa using hi)
      simp at this
      omega
    · intro hzero
      apply List.find?_eq_none.mpr
      intro i hi
      have := hzero i (by simpa using hi)
      simp [this]

/-- Helper: every photo id listed by a slide of the universe is a key of the
photo-usage dictionary. -/
theorem mem_photos_presentes {slides : List (List Nat × Finset String)}
    {s : List Nat × Finset String} (hs : s ∈ slides) {p : Nat} (hp : p ∈ s.1) :
    p ∈ photos_presentes slides := by
  induction slides with
  | nil => cases hs
  | cons t reste ih =>
    have hunfold : photos_presentes (t :: reste)
        = t.1.toFinset ∪ photos_presentes reste := rfl
    rw [hunfold]
    rcases List.mem_cons.mp hs with rfl | hs'
    · exact Finset.mem_union_left _ (List.mem_toFinset.mpr hp)
    · exact Finset.mem_union_right _ (ih hs')

/-- Helper: reading a list below its length with a default yields the entry
at that index, which is a member of the list. -/
theorem getD_lt_mem {α : Type} {l : List α} {i : Nat} (h : i < l.length) (d : α) :
    l.getD i d = l.get ⟨i, h⟩ ∧ l.getD i d ∈ l := by
  have h1 : l.getD i d = l.get ⟨i, h⟩ := by
    rw [List.getD_eq_getElem?_getD, List.getElem?_eq_getElem h]
    simp
  refine ⟨h1, ?_⟩
  rw [h1]
  simp only [List.get_eq_getElem]
  exact List.getElem_mem h

/-- C3: every assignment satisfying the constraints built by the model
constructor puts each slide at at most one position, at most one slide at
each position, and each photo id inside at most one selected slide; hence the
extracted solution has no repeated slide index and no photo id shared by two
of its slides. -/
theorem C3_contraintes_unicite (slides : List (List Nat × Finset String))
    (x : Nat → Nat → Nat) (h : modele_satisfait slides x) :
    selection_unique slides x ∧ solution_valide slides x := by
  obtain ⟨hb, hpos, hslide, hphoto, hfirst⟩ := h
  have Hslide : ∀ i pos1 pos2, i < slides.length → pos1 < slides.length →
      pos2 < slides.length → 1 ≤ x i pos1 → 1 ≤ x i pos2 → pos1 = pos2 := by
    intro i p1 p2 hi h1 h2 hx1 hx2
    by_contra hne
    have h2le := somme_deux_le (f := fun pos => x i pos) h1 h2 hne hx1 hx2
    have hc := hslide i hi
    omega
  have Hpos : ∀ i j pos, i < slides.length → j < slides.length →
      pos < slides.length → 1 ≤ x i pos → 1 ≤ x j pos → i = j := by
    intro i j pos hi hj hp hx1 hx2
    by_contra hne
    have h2le := somme_deux_le (f := fun a => x a pos) hi hj hne hx1 hx2
    have hc := hpos pos hp
    omega
  have Hphoto : ∀ p i j pos1 pos2, i < slides.length → j < slides.length →
      pos1 < slides.length → pos2 < slides.length →
      1 ≤ x i pos1 → 1 ≤ x j pos2 →
      p ∈ (slides.getD i slide_defaut).1 → p ∈ (slides.getD j slide_defaut).1 →
      i = j := by
    intro p i j p1 p2 hi hj hp1 hp2 hx1 hx2 hm1 hm2
    by_contra hne
    have hpp : p ∈ photos_presentes slides :=
      mem_photos_presentes (getD_lt_mem hi slide_defaut).2 hm1
    have hu := hphoto p hpp
    have hterm : ∀ a pa, a < slides.length → pa < slides.length → 1 ≤ x a pa →
        p ∈ (slides.getD a slide_defaut).1 →
        1 ≤ (slides.getD a slide_defaut).1.count p *
          (Finset.range slides.length).sum fun pos => x a pos := by
      intro a pa ha hpa hxa hma
      have hc : 1 ≤ (slides.getD a slide_defaut).1.count p := by
        have := List.count_pos_iff.mpr hma
        omega
      have hs : 1 ≤ (Finset.range slides.length).sum fun pos => x a pos :=
        le_trans hxa (terme_le_somme hpa)
      calc 1 = 1 * 1 := rfl
        _ ≤ (slides.getD a slide_defaut).1.count p *
              (Finset.range slides.length).sum fun pos => x a pos :=
          Nat.mul_le_mul hc hs
    have h2le := somme_deux_le
      (f := fun a => (slides.getD a slide_defaut).1.count p *
        (Finset.range slides.length).sum fun pos => x a pos)
      hi hj hne (hterm i p1 hi hp1 hx1 hm1) (hterm j p2 hj hp2 hx2 hm2)
    unfold utilisation_photo at hu
    omega
  have hloop := boucle_solution_spec x slides.length slides.length 0
  have hlen : (get_solution x slides.length).length ≤ slides.length := hloop.1
  have hval : ∀ t, t < (get_solution x slides.length).length →
      (get_solution x slides.length).getD t 0 < slides.length ∧
      1 ≤ x ((get_solution x slides.length).getD t 0) t := by
    intro t ht
    have := hloop.2.1 t ht
    exact cherche_slide_some (by simpa using this)
  have Hinj : ∀ t1 t2, t1 < (get_solution x slides.length).length →
      t2 < (get_solution x slides.length).length →
      (get_solution x slides.length).getD t1 0
        = (get_solution x slides.length).getD t2 0 → t1 = t2 := by
    intro t1 t2 h1 h2 heq
    have hv1 := hval t1 h1
    have hv2 := hval t2 h2
    exact Hslide _ t1 t2 hv1.1 (lt_of_lt_of_le h1 hlen) (lt_of_lt_of_le h2 hlen)
      hv1.2 (heq.symm ▸ hv2.2)
  refine ⟨⟨Hslide, Hpos, Hphoto⟩, ?_, ?_⟩
  · rw [List.nodup_iff_injective_get]
    intro a b heq
    apply Fin.ext
    apply Hinj a.1 b.1 a.2 b.2
    rw [(getD_lt_mem a.2 0).1, (getD_lt_mem b.2 0).1]
    exact heq
  · intro p t1 t2 h1 h2 hm1 hm2
    have hv1 := hval t1 h1
    have hv2 := hval t2 h2
    have hij := Hphoto p _ _ t1 t2 hv1.1 hv2.1 (lt_of_lt_of_le h1 hlen)
      (lt_of_lt_of_le h2 hlen) hv1.2 hv2.2 hm1 hm2
    exact Hinj t1 t2 h1 h2 hij

/-- C3, witness: a concrete two-slide universe with a concrete satisfying
assignment. -/
theorem C3_contraintes_unicite_temoin :
    modele_satisfait slides_test x_test ∧
      selection_unique slides_test x_test ∧ solution_valide slides_test x_test := by
  have hm : modele_satisfait slides_test x_test := by
    unfold modele_satisfait variables_binaires contrainte_position contrainte_slide
      contrainte_photo contrainte_premiere
    decide
  exact ⟨hm, C3_contraintes_unicite slides_test x_test hm⟩

/-- Helper: mapping a function over indexed reads of a list is mapping it
over the list. -/
theorem map_range_getD {α β : Type} (d : α) (g : α → β) :
    ∀ l : List α, (List.range l.length).map (fun j => g (l.getD j d)) = l.map g := by
  intro l
  induction l with
  | nil => simp
  | cons a l ih =>
    rw [List.length_cons, List.range_succ_eq_map, List.map_cons, List.map_map]
    simp only [Function.comp_def, List.getD_cons_zero, Nat.succ_eq_add_one,
      List.getD_cons_succ, List.map_cons]
    rw [ih]

/-- Helper: membership in a dropped range. -/
theorem mem_drop_range {n k j : Nat} : j ∈ (List.range n).drop k ↔ k ≤ j ∧ j < n := by
  constructor
  · intro h
    obtain ⟨m, hm, rfl⟩ := List.mem_iff_getElem.mp h
    simp [List.getElem_drop, List.getElem_range] at hm ⊢
    omega
  · intro h
    apply List.mem_iff_getElem.mpr
    refine ⟨j - k, ?_, ?_⟩
    · simp
      omega
    · rw [List.getElem_drop, List.getElem_range]
      omega

/-- Helper: peeling the smallest first index off the lexicographic pair
enumeration. -/
theorem lexPairs_succ (n : Nat) :
    lexPairs (n + 1)
      = ((List.range n).map fun j => (0, j + 1))
        ++ (lexPairs n).map fun ij => (ij.1 + 1, ij.2 + 1) := by
  unfold lexPairs
  rw [List.range_succ_eq_map, List.flatMap_cons]
  congr 1
  · rw [List.drop_succ_cons, List.drop_zero, List.map_map]
    simp [Function.comp_def, Nat.succ_eq_add_one]
  · rw [List.flatMap_map, List.map_flatMap]
    rw [List.flatMap_def, List.flatMap_def]
    apply congrArg List.flatten
    apply List.map_congr_left
    intro i _
    rw [Nat.succ_eq_add_one, show i + 1 + 1 = i + 2 from rfl, List.drop_succ_cons,
      ← List.map_drop, List.map_map, List.map_map]
    apply List.map_congr_left
    intro j _
    simp [Function.comp_def]

/-- Helper: the vertical pair loop enumerates exactly the lexicographically
ordered index pairs, each mapped to its paired slide. -/
theorem pairesVerticales_eq_lexPairs :
    ∀ l : List (Nat × Finset String),
      pairesVerticales l = (lexPairs l.length).map (slide_paire l) := by
  intro l
  induction l with
  | nil => rfl
  | cons v reste ih =>
    have h1 : (List.range reste.length).map
        (slide_paire (v :: reste) ∘ fun j => (0, j + 1))
        = reste.map fun w => ([v.1, w.1], v.2 ∪ w.2) := by
      rw [← map_range_getD paire_defaut (fun w => ([v.1, w.1], v.2 ∪ w.2)) reste]
      apply List.map_congr_left
      intro j _
      simp [slide_paire, Function.comp_def, List.getD_cons_zero, List.getD_cons_succ]
    have h2 : (lexPairs reste.length).map
        (slide_paire (v :: reste) ∘ fun ij => (ij.1 + 1, ij.2 + 1))
        = pairesVerticales reste := by
      rw [ih]
      apply List.map_congr_left
      intro ij _
      simp [slide_paire, Function.comp_def, List.getD_cons_succ]
    have hleft : pairesVerticales (v :: reste)
        = (reste.map fun w => ([v.1, w.1], v.2 ∪ w.2)) ++ pairesVerticales reste := rfl
    rw [hleft, List.length_cons, lexPairs_succ, List.map_append, List.map_map,
      List.map_map, h1, h2]

/-- Helper: the vertical pair loop emits one slide per unordered pair,
C(V, 2) in total. -/
theorem pairesVerticales_length :
    ∀ l : List (Nat × Finset String),
      (pairesVerticales l).length = Nat.choose l.length 2 := by
  intro l
  induction l with
  | nil => rfl
  | cons v reste ih =>
    have hleft : pairesVerticales (v :: reste)
        = (reste.map fun w => ([v.1, w.1], v.2 ∪ w.2)) ++ pairesVerticales reste := rfl
    rw [hleft, List.length_append, List.length_map, ih, List.length_cons,
      Nat.choose_succ_succ reste.length 1, Nat.choose_one_right]

/-- Helper: the lexicographic enumeration lists exactly the index pairs
`(i, j)` with `i < j < n`. -/
theorem mem_lexPairs {ij : Nat × Nat} {n : Nat} :
    ij ∈ lexPairs n ↔ ij.1 < ij.2 ∧ ij.2 < n := by
  unfold lexPairs
  rw [List.mem_flatMap]
  constructor
  · rintro ⟨i, hi, hmem⟩
    rw [List.mem_map] at hmem
    obtain ⟨j, hj, rfl⟩ := hmem
    have := mem_drop_range.mp hj
    exact ⟨by omega, this.2⟩
  · rintro ⟨h1, h2⟩
    refine ⟨ij.1, ?_, List.mem_map.mpr ⟨ij.2, mem_drop_range.mpr ⟨by omega, h2⟩, ?_⟩⟩
    · simp
      omega
    · rfl

/-- Helper: the lexicographic enumeration has no duplicate pair. -/
theorem nodup_lexPairs : ∀ n, (lexPairs n).Nodup := by
  intro n
  induction n with
  | zero =>
    show (List.Nodup [])
    simp
  | succ n ih =>
    rw [lexPairs_succ]
    apply List.Nodup.append
    · apply List.Nodup.map ?_ (List.nodup_range n)
      intro a b hab
      simpa using hab
    · apply List.Nodup.map ?_ ih
      intro a b hab
      simp [Prod.ext_iff] at hab ⊢
      omega
    · rw [List.disjoint_left]
      intro a ha hb
      rw [List.mem_map] at ha hb
      obtain ⟨j, _, rfl⟩ := ha
      obtain ⟨ij, _, hab⟩ := hb
      have := congrArg Prod.fst hab
      simp at this

/-- Helper: a guarded filterMap is the map over the filtered list. -/
theorem filterMap_if_eq {α β : Type} (q : α → Prop) [DecidablePred q] (g : α → β) :
    ∀ l : List α,
      (l.filterMap fun a => if q a then some (g a) else none)
        = (l.filter fun a => decide (q a)).map g := by
  intro l
  induction l with
  | nil => rfl
  | cons a l ih =>
    by_cases h : q a
    · simp [List.filterMap_cons, List.filter_cons, h, ih]
    · simp [List.filterMap_cons, List.filter_cons, h, ih]

/-- Helper: the ids of the vertical photo list form a sublist of the ids of
the catalog. -/
theorem verticales_ids_sublist :
    ∀ photos : List Photo,
      ((verticales photos).map Prod.fst).Sublist (photos.map Photo.id) := by
  intro photos
  induction photos with
  | nil => simp [verticales]
  | cons p reste ih =>
    by_cases h : p.orientation = "V"
    · have hv : verticales (p :: reste) = (p.id, p.tags) :: verticales reste := by
        simp [verticales, List.filterMap_cons, h]
      rw [hv, List.map_cons, List.map_cons]
      exact List.Sublist.cons₂ _ ih
    · have hv : verticales (p :: reste) = verticales reste := by
        simp [verticales, List.filterMap_cons, h]
      rw [hv, List.map_cons]
      exact List.Sublist.cons _ ih

/-- Helper: with pairwise distinct catalog ids, two distinct positions of the
vertical photo list carry distinct ids. -/
theorem verticales_getD_fst_ne {photos : List Photo}
    (hid : (photos.map Photo.id).Nodup) {i j : Nat} (hij : i ≠ j)
    (hi : i < (verticales photos).length) (hj : j < (verticales photos).length) :
    ((verticales photos).getD i paire_defaut).1
      ≠ ((verticales photos).getD j paire_defaut).1 := by
  have hnd : ((verticales photos).map Prod.fst).Nodup :=
    (verticales_ids_sublist photos).nodup hid
  intro heq
  have hi' : i < ((verticales photos).map Prod.fst).length := by simpa using hi
  have hj' : j < ((verticales photos).map Prod.fst).length := by simpa using hj
  have hgi : ((verticales photos).map Prod.fst).get ⟨i, hi'⟩
      = ((verticales photos).getD i paire_defaut).1 := by
    rw [(getD_lt_mem hi paire_defaut).1]
    simp [List.get_eq_getElem, List.getElem_map]
  have hgj : ((verticales photos).map Prod.fst).get ⟨j, hj'⟩
      = ((verticales photos).getD j paire_defaut).1 := by
    rw [(getD_lt_mem hj paire_defaut).1]
    simp [List.get_eq_getElem, List.getElem_map]
  have hfin : (⟨i, hi'⟩ : Fin _) = ⟨j, hj'⟩ :=
    hnd.get_inj_iff.mp (by rw [hgi, hgj, heq])
  exact hij (by simpa using hfin)

/-- C2: with pairwise distinct catalog ids, the generator emits exactly one
singleton slide per horizontal photo in input order followed by one slide per
unordered vertical index pair in lexicographic order, H + C(V, 2) slides in
total, each paired slide carrying two distinct photo ids and the union of the
two tag sets. -/
theorem C2_slides_generes (photos : List Photo)
    (hid : (photos.map Photo.id).Nodup) :
    generation_conforme photos := by
  have hH : (photos.filterMap fun p =>
        if p.orientation = "H" then some ([p.id], p.tags) else none)
      = (horizontales photos).map slide_horizontale := by
    rw [filterMap_if_eq (fun p : Photo => p.orientation = "H")
      (fun p => ([p.id], p.tags)) photos]
    rfl
  refine ⟨?_, ?_, ?_, ?_, ?_⟩
  · unfold creer_slides
    rw [hH, pairesVerticales_eq_lexPairs]
  · unfold creer_slides
    rw [hH, List.length_append, List.length_map, pairesVerticales_length]
  · intro ij
    exact mem_lexPairs
  · exact nodup_lexPairs _
  · intro ij hij
    obtain ⟨h1, h2⟩ := mem_lexPairs.mp hij
    exact verticales_getD_fst_ne hid (by omega) (by omega) (by omega)

/-- C2, witness: a concrete catalog with two horizontal and three vertical
photos and distinct ids. -/
theorem C2_slides_generes_temoin :
    (photos_test.map Photo.id).Nodup ∧ generation_conforme photos_test :=
  ⟨by decide, C2_slides_generes photos_test (by decide)⟩

/-- Helper: a successful record parse echoes the first token, unvalidated, as
the orientation field. -/
theorem parse_ligne_some {tokens : List String} {o : String} {k : Nat}
    {tg : Finset String} (h : parse_ligne tokens = some (o, k, tg)) :
    tokens.getD 0 "" = o := by
  cases tokens with
  | nil => exact absurd h (by simp [parse_ligne])
  | cons a reste =>
    cases reste with
    | nil => exact absurd h (by simp [parse_ligne])
    | cons b reste2 =>
      simp only [parse_ligne] at h
      cases hb : litEntier b with
      | none =>
        rw [hb] at h
        simp at h
      | some m =>
        rw [hb] at h
        simp at h
        rw [List.getD_cons_zero]
        exact h.1

/-- Helper: the reading loop succeeds exactly when each of the scanned lines
parses. -/
theorem lire_lignes_isSome (lines : List (List String)) :
    ∀ k i, (lire_lignes lines i k).isSome ↔
      ∀ m, m < k → (parse_ligne (lines.getD (i + m) [])).isSome := by
  intro k
  induction k with
  | zero =>
    intro i
    simp [lire_lignes]
  | succ k ih =>
    intro i
    constructor
    · intro h m hm
      cases hp : parse_ligne (lines.getD i []) with
      | none =>
        exfalso
        unfold lire_lignes at h
        rw [hp] at h
        simp at h
      | some val =>
        obtain ⟨o, num, tg⟩ := val
        unfold lire_lignes at h
        rw [hp] at h
        cases hr : lire_lignes lines (i + 1) k with
        | none =>
          rw [hr] at h
          simp at h
        | some reste =>
          cases m with
          | zero =>
            rw [Nat.add_zero, hp]
            rfl
          | succ m2 =>
            have hk := (ih (i + 1)).mp (by rw [hr]; rfl) m2 (by omega)
            rw [show i + (m2 + 1) = i + 1 + m2 by omega]
            exact hk
    · intro hall
      have h0 : (parse_ligne (lines.getD i [])).isSome := by
        have := hall 0 (by omega)
        simpa using this
      obtain ⟨⟨o, num, tg⟩, hp⟩ := Option.isSome_iff_exists.mp h0
      have hrest : (lire_lignes lines (i + 1) k).isSome := by
        apply (ih (i + 1)).mpr
        intro m hm
        have := hall (m + 1) (by omega)
        rw [show i + (m + 1) = i + 1 + m by omega] at this
        exact this
      obtain ⟨reste, hr⟩ := Option.isSome_iff_exists.mp hrest
      unfold lire_lignes
      rw [hp, hr]
      rfl

/-- Helper: a successful read yields one photo per line, ids equal to the
0-based line positions, each orientation copied verbatim from the first token
of its line. -/
theorem lire_lignes_some (lines : List (List String)) :
    ∀ k i photos, lire_lignes lines i k = some photos →
      photos.length = k ∧ photos.map Photo.id = List.range' i k ∧
      ∀ m, m < k → (photos.getD m photo_defaut).orientation
          = (lines.getD (i + m) []).getD 0 "" := by
  intro k
  induction k with
  | zero =>
    intro i photos h
    simp [lire_lignes] at h
    subst h
    refine ⟨rfl, by simp, ?_⟩
    intro m hm
    omega
  | succ k ih =>
    intro i photos h
    unfold lire_lignes at h
    cases hp : parse_ligne (lines.getD i []) with
    | none =>
      rw [hp] at h
      simp at h
    | some val =>
      obtain ⟨o, num, tg⟩ := val
      rw [hp] at h
      cases hr : lire_lignes lines (i + 1) k with
      | none =>
        rw [hr] at h
        simp at h
      | some reste =>
        rw [hr] at h
        simp at h
        subst h
        obtain ⟨hl, hmap, hor⟩ := ih (i + 1) reste hr
        refine ⟨by simp [hl], ?_, ?_⟩
        · rw [List.map_cons, hmap]
          rw [List.range'_succ]
        · intro m hm
          cases m with
          | zero =>
            rw [Nat.add_zero, parse_ligne_some hp]
            rfl
          | succ m2 =>
            have hm2 := hor m2 (by omega)
            rw [show i + (m2 + 1) = i + 1 + m2 by omega]
            simpa [List.getD_cons_succ] using hm2

/-- Helper: every slide of the universe comes from horizontal photos or pairs
of elements of the vertical list. -/
theorem mem_pairesVerticales {s : List Nat × Finset String} :
    ∀ {l : List (Nat × Finset String)}, s ∈ pairesVerticales l →
      ∃ a b, a ∈ l ∧ b ∈ l ∧ s = ([a.1, b.1], a.2 ∪ b.2) := by
  intro l
  induction l with
  | nil =>
    intro h
    cases h
  | cons v reste ih =>
    intro h
    have hu : pairesVerticales (v :: reste)
        = (reste.map fun w => ([v.1, w.1], v.2 ∪ w.2)) ++ pairesVerticales reste := rfl
    rw [hu, List.mem_append] at h
    rcases h with h | h
    · rw [List.mem_map] at h
      obtain ⟨w, hw, rfl⟩ := h
      exact ⟨v, w, List.mem_cons_self v reste, List.mem_cons_of_mem v hw, rfl⟩
    · obtain ⟨a, b, ha, hb, rfl⟩ := ih h
      exact ⟨a, b, List.mem_cons_of_mem v ha, List.mem_cons_of_mem v hb, rfl⟩

/-- Helper: with distinct catalog ids, a photo that is neither horizontal nor
vertical is mentioned by no generated slide. -/
theorem exclusion_generateur {photos : List Photo}
    (hid : (photos.map Photo.id).Nodup) :
    ∀ p ∈ photos, p.orientation ≠ "H" → p.orientation ≠ "V" →
      ∀ s ∈ creer_slides photos, p.id ∉ s.1 := by
  intro p hp hH hV s hs hmem
  have hinj := List.inj_on_of_nodup_map hid
  unfold creer_slides at hs
  rw [List.mem_append] at hs
  rcases hs with hs | hs
  · rw [List.mem_filterMap] at hs
    obtain ⟨q, hq, hqe⟩ := hs
    by_cases hqo : q.orientation = "H"
    · rw [if_pos hqo] at hqe
      have hse := Option.some.inj hqe
      subst hse
      simp at hmem
      have hpq : p = q := hinj hp hq hmem
      exact hH (by rw [hpq, hqo])
    · rw [if_neg hqo] at hqe
      exact Option.noConfusion hqe
  · obtain ⟨a, b, ha, hb, rfl⟩ := mem_pairesVerticales hs
    unfold verticales at ha hb
    rw [List.mem_filterMap] at ha hb
    obtain ⟨qa, hqa, hqae⟩ := ha
    obtain ⟨qb, hqb, hqbe⟩ := hb
    by_cases hoa : qa.orientation = "V"
    · by_cases hob : qb.orientation = "V"
      · rw [if_pos hoa] at hqae
        rw [if_pos hob] at hqbe
        have ha2 := Option.some.inj hqae
        have hb2 := Option.some.inj hqbe
        simp at hmem
        rcases hmem with h1 | h1
        · rw [← ha2] at h1
          simp at h1
          have hpq : p = qa := hinj hp hqa h1
          exact hV (by rw [hpq, hoa])
        · rw [← hb2] at h1
          simp at h1
          have hpq : p = qb := hinj hp hqb h1
          exact hV (by rw [hpq, hob])
      · rw [if_neg hob] at hqbe
        exact Option.noConfusion hqbe
    · rw [if_neg hoa] at hqae
      exact Option.noConfusion hqae

/-- C5, amended: loading validates neither the orientation token nor the
declared tag count: it succeeds exactly when every scanned line has at least
two tokens with a numeric count, independently of the orientation token and
of how many tag tokens follow. -/
theorem C5_chargement_sans_validation :
    (∀ n lines, (lire_input n lines).isSome ↔
        ∀ m, m < n → (parse_ligne (lines.getD m [])).isSome) ∧
    (∀ o o2 c reste, (parse_ligne (o :: c :: reste)).isSome
        = (parse_ligne (o2 :: c :: reste)).isSome) ∧
    ∀ o c reste k, litEntier c = some k → (parse_ligne (o :: c :: reste)).isSome := by
  refine ⟨?_, ?_, ?_⟩
  · intro n lines
    have := lire_lignes_isSome lines n 0
    simpa using this
  · intro o o2 c reste
    simp only [parse_ligne]
    cases litEntier c <;> rfl
  · intro o c reste k hk
    simp only [parse_ligne]
    rw [hk]
    rfl

/-- C9: a record with an orientation token other than H and V loads without
any error; the photo is retained in the catalog with its orientation token
copied verbatim, and it contributes no slide to the candidate universe. -/
theorem C9_orientation_ignoree (n : Nat) (lines : List (List String))
    (h : ∀ m, m < n → (parse_ligne (lines.getD m [])).isSome) :
    ∃ photos, lire_input n lines = some photos ∧ photos.length = n ∧
      photos.map Photo.id = List.range n ∧
      (∀ m, m < n → (photos.getD m photo_defaut).orientation
          = (lines.getD m []).getD 0 "") ∧
      ∀ p ∈ photos, p.orientation ≠ "H" → p.orientation ≠ "V" →
        ∀ s ∈ creer_slides photos, p.id ∉ s.1 := by
  have hs : (lire_input n lines).isSome := by
    unfold lire_input
    apply (lire_lignes_isSome lines n 0).mpr
    intro m hm
    simpa using h m hm
  obtain ⟨photos, hp⟩ := Option.isSome_iff_exists.mp hs
  obtain ⟨hl, hmap, hor⟩ := lire_lignes_some lines n 0 photos hp
  have hrange : photos.map Photo.id = List.range n := by
    rw [hmap, ← List.range_eq_range']
  have hid : (photos.map Photo.id).Nodup := by
    rw [hrange]
    exact List.nodup_range n
  refine ⟨photos, hp, hl, hrange, ?_, exclusion_generateur hid⟩
  intro m hm
  simpa using hor m hm

/-- C9, witness: one record with orientation token X loads and generates no
slide. -/
theorem C9_orientation_ignoree_temoin :
    (∀ m, m < 1 → (parse_ligne (lines_test.getD m [])).isSome) ∧
    (∃ photos, lire_input 1 lines_test = some photos ∧ photos.length = 1 ∧
      photos.map Photo.id = List.range 1 ∧
      (∀ m, m < 1 → (photos.getD m photo_defaut).orientation
          = (lines_test.getD m []).getD 0 "") ∧
      ∀ p ∈ photos, p.orientation ≠ "H" → p.orientation ≠ "V" →
        ∀ s ∈ creer_slides photos, p.id ∉ s.1) :=
  ⟨by decide, C9_orientation_ignoree 1 lines_test (by decide)⟩
